import Mathlib

/-!
Shallow embedding of the two-stage financial-statement extraction pipeline
(page location, numeric normalization, column interpretation, label mapping)
and of the PDF-detail page-selection handlers of the frontend.

The repository ships the architecture/usage documentation of the extraction
core together with the React frontend sources; the Python modules of the core
(`numeric_normalizer.py`, `column_interpreter.py`, `mapping_engine.py`,
`page_locator.py`) are not part of the source tree, so the corresponding
definitions below are modelled from the specification, as indicated in each
doc comment.  The frontend handlers (`handlePageSelect`, `handleExtractData`
of `PDFDetail.jsx`) are translated directly from the source.
-/

namespace StockExtract

/- ### Character and list utilities -/

/-- Whitespace recognized by trimming (space, tab, line feed, carriage return). -/
def isWs (c : Char) : Bool := c == ' ' || c == '\t' || c == '\n' || c == '\r'

/-- Remove trailing whitespace. -/
def trimEnd (cs : List Char) : List Char := (cs.reverse.dropWhile isWs).reverse

/-- Remove leading and trailing whitespace. -/
def trim (cs : List Char) : List Char := trimEnd (cs.dropWhile isWs)

/-- Lower-case a character. -/
def lowerChar (c : Char) : Char := c.toLower

/-- The ten ASCII digits. -/
def digitChars : List Char := ['0', '1', '2', '3', '4', '5', '6', '7', '8', '9']

/-- Is `c` an ASCII digit? -/
def isDigitCh (c : Char) : Bool := digitChars.contains c

/-- Is `c` an ASCII digit or a decimal point? -/
def isDigitOrDot (c : Char) : Bool := isDigitCh c || c == '.'

/-- Numeric value of a digit string (most significant digit first). -/
def digitsVal (cs : List Char) : Nat := cs.foldl (fun n c => 10 * n + (c.toNat - 48)) 0

/- ### NumericNormalizer -/

/-- Result of normalizing one raw table cell: the parsed signed value, the
negativity flag, the semantic-blank flag and the parse-failure flag. -/
structure NormalizedValue where
  raw : String
  value : Option Rat
  is_negative : Bool
  is_null : Bool
  parse_failed : Bool
deriving DecidableEq

/-- Modelled from the spec: the null tokens of the normalizer — the empty
string, the dash variants `-`, `–`, `—` and the word "nil" case-insensitively. -/
def isNullTok (cs : List Char) : Bool :=
  cs.isEmpty || cs == ['-'] || cs == ['–'] || cs == ['—'] ||
    cs.map lowerChar == ['n', 'i', 'l']

/-- Modelled from the spec: the configured currency markers stripped from the
front of a cell (the documentation shows the "Rs." marker of LKR amounts). -/
def currencyMarks : List (List Char) :=
  [['R', 's', '.'], ['R', 's'], ['L', 'K', 'R'], ['$']]

/-- Strip one leading currency marker, if present, and re-trim. -/
def dropMark (cs : List Char) (p : List Char) : List Char :=
  if cs.take p.length = p then trim (cs.drop p.length) else cs

/-- Strip all configured currency markers from the front of the cell. -/
def stripCurrency (cs : List Char) : List Char := currencyMarks.foldl dropMark cs

/-- Strip thousands separators (commas). -/
def stripCommas (cs : List Char) : List Char := cs.filter (fun c => c != ',')

/-- Is `cs` a plain decimal numeral: only digits and at most one decimal
point, with at least one digit? -/
def isNumLit (cs : List Char) : Bool :=
  cs.all isDigitOrDot && decide (cs.count '.' ≤ 1) && cs.any isDigitCh

/-- Exact value of a decimal numeral (integer part plus fractional part). -/
def decimalVal (cs : List Char) : Rat :=
  let ip := cs.takeWhile (fun c => c != '.')
  let fp := (cs.dropWhile (fun c => c != '.')).drop 1
  (digitsVal ip : Rat) + (digitsVal fp : Rat) / (10 : Rat) ^ fp.length

/-- Parse a cleaned cell body into a magnitude; `none` on junk. -/
def parseDecimal (cs : List Char) : Option Rat :=
  if isNumLit cs then some (decimalVal cs) else none

/-- Does the trimmed cell have the bracket form `(…)`? -/
def isBracket (cs : List Char) : Bool :=
  cs.headD ' ' == '(' && cs.getLastD ' ' == ')' && decide (2 ≤ cs.length)

/-- Modelled from the spec: `NumericNormalizer.normalize` (the module
`numeric_normalizer.py` is absent from the tree).  In order: trim; recognize
null tokens; recognize the bracket (negative) form and strip the parentheses;
strip currency markers and thousands separators; an empty residue is a
semantic blank; a decimal numeral yields the signed value; anything else is a
parse failure.  No unit (thousands/millions) scaling is applied. -/
def normalize (raw : String) : NormalizedValue :=
  let cs := trim raw.data
  if isNullTok cs then ⟨raw, none, false, true, false⟩
  else
    let br := isBracket cs
    let body := if br then trim ((cs.drop 1).dropLast) else cs
    let body2 := stripCommas (stripCurrency body)
    if body2.isEmpty then ⟨raw, none, br, true, false⟩
    else
      match parseDecimal body2 with
      | some m => ⟨raw, some (if br then -m else m), br, false, false⟩
      | none => ⟨raw, none, br, false, true⟩

/- ### MappingEngine -/

/-- The three statement types handled by the pipeline. -/
inductive StatementType
  | IncomeStatement
  | FinancialPosition
  | CashFlow
deriving DecidableEq

/-- How a raw row label was matched to the canonical schema. -/
inductive MatchMethod
  | exact
  | synonym
  | fuzzy
  | none
deriving DecidableEq

/-- Result of mapping one raw row label onto the canonical schema. -/
structure MappingResult where
  raw_label : String
  canonical_key : Option String
  match_method : MatchMethod
  confidence : Rat
deriving DecidableEq

/-- Collapse whitespace runs to single blanks; the flag records whether the
previous character was whitespace (so the rest of the run is skipped). -/
def collapseGo : Bool → List Char → List Char
  | _, [] => []
  | skipWs, c :: rest =>
    if isWs c then
      if skipWs then collapseGo true rest else ' ' :: collapseGo true rest
    else c :: collapseGo false rest

/-- Normalized form of a label: lower-cased, trimmed, whitespace collapsed. -/
def normLabel (s : String) : List Char := collapseGo false (trim (s.data.map lowerChar))

/-- Modelled from the spec: a representative subset of the canonical field
list per statement type (the full schema module is absent from the tree; the
fields are those used in the documentation's examples). -/
def STATEMENT_FIELDS : StatementType → List String
  | .IncomeStatement =>
      ["Gross income", "Interest income", "Net interest income",
       "Total operating income"]
  | .FinancialPosition =>
      ["Total assets", "Total liabilities", "Total equity"]
  | .CashFlow =>
      ["Net cash from operating activities", "Net cash from investing activities"]

/-- Modelled from the spec: the per-statement-type synonym dictionary
(canonical field → synonyms), with the entries shown in the documentation. -/
def SYNONYMS : StatementType → List (String × List String)
  | .IncomeStatement =>
      [("Interest income", ["interest revenue", "Interest Income from Loans"]),
       ("Net interest income", ["NII"])]
  | .FinancialPosition =>
      [("Total assets", ["assets total"])]
  | .CashFlow => []

/-- Exact step: case-insensitive, whitespace-normalized equality with a
canonical field; confidence 1. -/
def exactStep (raw : String) (st : StatementType) : Option MappingResult :=
  ((STATEMENT_FIELDS st).find? (fun f => normLabel f == normLabel raw)).map
    (fun f => ⟨raw, some f, MatchMethod.exact, 1⟩)

/-- Synonym step: normalized lookup in the synonym dictionary; confidence is
the configured synonym confidence 0.95. -/
def synonymStep (raw : String) (st : StatementType) : Option MappingResult :=
  ((SYNONYMS st).find? (fun p => (p.2.map normLabel).contains (normLabel raw))).map
    (fun p => ⟨raw, some p.1, MatchMethod.synonym, 95 / 100⟩)

/-- One row of the Levenshtein distance table: extend the previous row
`prev` over the remaining characters `bs`, `cur` being the freshly computed
cell of the new row. -/
def editGo (x : Char) : List Char → List Nat → Nat → List Nat
  | [], _, cur => [cur]
  | b :: bs, prev, cur =>
    let pj := prev.headD 0
    let pj1 := (prev.drop 1).headD 0
    let nxt := min (pj + (if x == b then 0 else 1)) (min (cur + 1) (pj1 + 1))
    cur :: editGo x bs (prev.drop 1) nxt

/-- Levenshtein edit distance by dynamic programming over rows. -/
def editDist (a b : List Char) : Nat :=
  (a.foldl (fun prev x => editGo x b prev (prev.headD 0 + 1))
    (List.range (b.length + 1))).getLastD 0

/-- Normalized similarity score on the 0–100 scale:
`100 · (maxlen − editDist) / maxlen`. -/
def simScore (a b : List Char) : Rat :=
  let m := max a.length b.length
  if m = 0 then 100 else 100 * ((m - editDist a b : Nat) : Rat) / (m : Rat)

/-- Best fuzzy similarity score of a raw label against the canonical fields. -/
def bestScore (raw : String) (st : StatementType) : Rat :=
  (((STATEMENT_FIELDS st).map (fun f => simScore (normLabel raw) (normLabel f))).foldl
    max 0)

/-- Fuzzy step: accept the maximum similarity if it reaches the fuzzy
threshold 85; confidence is the score on the 0–1 scale scaled by 0.95. -/
def fuzzyStep (raw : String) (st : StatementType) : Option MappingResult :=
  if 85 ≤ bestScore raw st then
    ((STATEMENT_FIELDS st).find?
        (fun f => decide (simScore (normLabel raw) (normLabel f) = bestScore raw st))).map
      (fun f => ⟨raw, some f, MatchMethod.fuzzy, bestScore raw st / 100 * (95 / 100)⟩)
  else Option.none

/-- Modelled from the spec: `MappingEngine.map_label` (the module
`mapping_engine.py` is absent from the tree).  Cascade of exact, synonym and
fuzzy matching, stopping at the first successful step; an unmapped label
yields `match_method = none` with confidence 0 and is never an error. -/
def map_label (raw : String) (st : StatementType) : MappingResult :=
  match exactStep raw st with
  | some r => r
  | Option.none =>
    match synonymStep raw st with
    | some r => r
    | Option.none =>
      match fuzzyStep raw st with
      | some r => r
      | Option.none => ⟨raw, Option.none, MatchMethod.none, 0⟩

/- ### ColumnInterpreter -/

/-- Reporting perspective of a column. -/
inductive Entity
  | Bank
  | Group
deriving DecidableEq

/-- Semantic classification of a table column. -/
inductive ColumnType
  | description
  | bank_year1
  | bank_year2
  | group_year1
  | group_year2
  | note
  | unknown
deriving DecidableEq

/-- Classification record of one table column. -/
structure ColumnInfo where
  column_index : Nat
  column_type : ColumnType
  entity : Option Entity
  year : Option Nat
  confidence : Rat
deriving DecidableEq

/-- Normalized form of one header token. -/
def normTok (t : String) : List Char := trim (t.data.map lowerChar)

/-- Does some token of the column normalize into the word list `ws`? -/
def hasTok (toks : List String) (ws : List (List Char)) : Bool :=
  toks.any (fun t => ws.contains (normTok t))

/-- Entity of a column: Bank/Company keywords win over Group/Consolidated. -/
def entityOf (toks : List String) : Option Entity :=
  if hasTok toks [['b', 'a', 'n', 'k'], ['c', 'o', 'm', 'p', 'a', 'n', 'y']] then
    some Entity.Bank
  else if hasTok toks [['g', 'r', 'o', 'u', 'p'],
      ['c', 'o', 'n', 's', 'o', 'l', 'i', 'd', 'a', 't', 'e', 'd']] then
    some Entity.Group
  else Option.none

/-- Year of a column: the first token consisting of exactly four digits. -/
def yearOf (toks : List String) : Option Nat :=
  toks.findSome? (fun t =>
    let cs := trim t.data
    if cs.length = 4 && cs.all isDigitCh then some (digitsVal cs) else Option.none)

/-- Is this a Note column? -/
def isNoteCol (toks : List String) : Bool := hasTok toks [['n', 'o', 't', 'e']]

/-- The merged token stream of column `j`: the `j`-th cell of every header row. -/
def colToks (rows : List (List String)) (j : Nat) : List String :=
  rows.map (fun r => r.getD j "")

/-- Number of columns: the widest header row. -/
def numCols (rows : List (List String)) : Nat :=
  rows.foldl (fun m r => max m r.length) 0

/-- Confidence of a column: 0.2 base, +0.3 entity found, +0.3 year found,
+0.2 position plausibility (description leftmost, entity columns rightward). -/
def colConfidence (j : Nat) (ct : ColumnType) (ent : Option Entity)
    (yr : Option Nat) : Rat :=
  ((2 + (if ent.isSome then 3 else 0) + (if yr.isSome then 3 else 0) +
    (if ct = ColumnType.description && j == 0 then 2
     else if ent.isSome && j != 0 then 2 else 0) : Nat) : Rat) / 10

/-- Walk the columns left to right; `bk`/`gp` count the Bank/Group columns
already seen (first appearance is Year1, second Year2), `dd` records whether
the description column has been assigned. -/
def classifyGo (rows : List (List String)) :
    List Nat → Nat → Nat → Bool → List ColumnInfo
  | [], _, _, _ => []
  | j :: js, bk, gp, dd =>
    let toks := colToks rows j
    let ent := entityOf toks
    let yr := yearOf toks
    if isNoteCol toks then
      ⟨j, ColumnType.note, Option.none, yr, colConfidence j ColumnType.note Option.none yr⟩ ::
        classifyGo rows js bk gp dd
    else
      match ent with
      | some Entity.Bank =>
        let ct := if bk = 0 then ColumnType.bank_year1
                  else if bk = 1 then ColumnType.bank_year2 else ColumnType.unknown
        ⟨j, ct, some Entity.Bank, yr, colConfidence j ct ent yr⟩ ::
          classifyGo rows js (bk + 1) gp dd
      | some Entity.Group =>
        let ct := if gp = 0 then ColumnType.group_year1
                  else if gp = 1 then ColumnType.group_year2 else ColumnType.unknown
        ⟨j, ct, some Entity.Group, yr, colConfidence j ct ent yr⟩ ::
          classifyGo rows js bk (gp + 1) dd
      | Option.none =>
        if yr.isNone && !dd then
          ⟨j, ColumnType.description, Option.none, Option.none,
            colConfidence j ColumnType.description Option.none Option.none⟩ ::
            classifyGo rows js bk gp true
        else
          ⟨j, ColumnType.unknown, Option.none, yr,
            colConfidence j ColumnType.unknown Option.none yr⟩ ::
            classifyGo rows js bk gp dd

/-- Modelled from the spec: `ColumnInterpreter.interpret_columns` (the module
`column_interpreter.py` is absent from the tree).  Header rows are merged into
one token stream per column; each column gets an entity via keyword sets, a
year via the 4-digit token rule, a Year1/Year2 slot by left-to-right first
appearance per entity, and the leftmost column lacking both entity and year
is the description column. -/
def interpret_columns (rows : List (List String)) : List ColumnInfo :=
  classifyGo rows (List.range (numCols rows)) 0 0 false

/- ### PageLocator -/

/-- One detector's (or the fused) page-range candidate for a statement type. -/
structure PageCandidate where
  pageStart : Nat
  pageEnd : Nat
  confidence : Rat
  sources : List String
  evidence : List String
deriving DecidableEq

/-- Product of a list of rationals. -/
def prodList : List Rat → Rat
  | [] => 1
  | x :: xs => x * prodList xs

/-- Modelled from the spec: noisy-OR fusion of the per-source confidences of
one cluster, `1 − Π (1 − cᵢ)`, capped at 0.99. -/
def fuseConfidence (cs : List Rat) : Rat :=
  min (1 - prodList (cs.map (fun c => 1 - c))) (99 / 100)

/-- A detector exposed behind the uniform `detect` capability; the result is
fallible (`Except`), modelling a detector that raises. -/
abbrev Detector : Type := StatementType → Except String (List PageCandidate)

/-- Per-detector error containment: an erroring detector contributes zero
candidates. -/
def catchDetect (d : Detector) (st : StatementType) : List PageCandidate :=
  match d st with
  | Except.ok cs => cs
  | Except.error _ => []

/-- All candidates of all detectors for one statement type, errors contained. -/
def gatherCandidates (ds : List Detector) (st : StatementType) : List PageCandidate :=
  (ds.map (fun d => catchDetect d st)).flatten

/-- Insert into a list sorted by the Boolean order `le`. -/
def insertLe {α : Type} (le : α → α → Bool) (x : α) : List α → List α
  | [] => [x]
  | y :: ys => if le x y then x :: y :: ys else y :: insertLe le x ys

/-- Insertion sort by the Boolean order `le` (stable, deterministic). -/
def sortLe {α : Type} (le : α → α → Bool) (l : List α) : List α :=
  l.foldr (insertLe le) []

/-- Candidate order by start page, for clustering. -/
def byStart (a b : PageCandidate) : Bool := decide (a.pageStart ≤ b.pageStart)

/-- Rightmost page covered by a cluster. -/
def clusterEnd (cl : List PageCandidate) : Nat := cl.foldl (fun m c => max m c.pageEnd) 0

/-- Add the next (start-sorted) candidate to the clusters: join the current
cluster when the ranges overlap or are adjacent (gap ≤ 1), else open a new one. -/
def clusterStep (acc : List (List PageCandidate)) (c : PageCandidate) :
    List (List PageCandidate) :=
  match acc with
  | [] => [[c]]
  | cur :: rest =>
    if c.pageStart ≤ clusterEnd cur + 1 then (c :: cur) :: rest else [c] :: cur :: rest

/-- Group start-sorted candidates into overlap/adjacency clusters. -/
def clustersOf (cs : List PageCandidate) : List (List PageCandidate) :=
  cs.foldl clusterStep []

/-- Fuse one cluster: covering page range, noisy-OR confidence, union of
sources and evidence. -/
def fuseCluster (cl : List PageCandidate) : PageCandidate :=
  { pageStart := (cl.map (fun c => c.pageStart)).foldr min (clusterEnd cl)
    pageEnd := clusterEnd cl
    confidence := fuseConfidence (cl.map (fun c => c.confidence))
    sources := ((cl.map (fun c => c.sources)).flatten).dedup
    evidence := (cl.map (fun c => c.evidence)).flatten }

/-- The default minimum fused confidence a cluster must reach. -/
def min_page_confidence : Rat := 1 / 2

/-- Ranking order: confidence descending, ties by more sources, narrower
range, earliest page. -/
def rankLe (a b : PageCandidate) : Bool :=
  if b.confidence < a.confidence then true
  else if a.confidence < b.confidence then false
  else if b.sources.length < a.sources.length then true
  else if a.sources.length < b.sources.length then false
  else if a.pageEnd - a.pageStart < b.pageEnd - b.pageStart then true
  else if b.pageEnd - b.pageStart < a.pageEnd - a.pageStart then false
  else decide (a.pageStart ≤ b.pageStart)

/-- Modelled from the spec: the fused, filtered, ranked candidate list of one
statement type, detector errors contained per detector. -/
def locateOne (ds : List Detector) (st : StatementType) : List PageCandidate :=
  sortLe rankLe
    (((clustersOf (sortLe byStart (gatherCandidates ds st))).map fuseCluster).filter
      (fun c => decide (min_page_confidence ≤ c.confidence)))

/-- The three statement types, in pipeline order. -/
def allStatementTypes : List StatementType :=
  [StatementType.IncomeStatement, StatementType.FinancialPosition,
   StatementType.CashFlow]

/-- Modelled from the spec: `PageLocator.locate` (the module `page_locator.py`
is absent from the tree) — one ranked candidate list per statement type. -/
def locate (ds : List Detector) : List (StatementType × List PageCandidate) :=
  allStatementTypes.map (fun st => (st, locateOne ds st))

/-- A detector with its failures replaced by empty success: used to state
that an erroring detector contributes exactly zero candidates. -/
def hardenDetector (d : Detector) : Detector :=
  fun st => Except.ok (catchDetect d st)

/-- A detector that raises on every statement type (for the fault-tolerance
witness). -/
def errDetector : Detector := fun _ => Except.error "io error"

/- ### Frontend page-selection handlers (PDFDetail.jsx) -/

/-- The `selectedPages` state object: statement type → selected page list. -/
abbrev SelectedPages : Type := List (String × List Nat)

/-- `prev[statementType] || []` — the current selection of one statement type. -/
def getPages (st : SelectedPages) (k : String) : List Nat :=
  ((st.find? (fun p => p.1 == k)).map (fun p => p.2)).getD []

/-- `{...prev, [statementType]: newPages}` — object update of one key. -/
def setPages (st : SelectedPages) (k : String) (v : List Nat) : SelectedPages :=
  match st with
  | [] => [(k, v)]
  | (k', v') :: rest =>
    if k' == k then (k, v) :: rest else (k', v') :: setPages rest k v

/-- `handlePageSelect` of `PDFDetail.jsx`: toggle the membership of `pageNum`
in the selection of `statementType` (filter it out when present, append it
when absent). -/
def handlePageSelect (st : SelectedPages) (statementType : String) (pageNum : Nat) :
    SelectedPages :=
  let currentPages := getPages st statementType
  let newPages :=
    if currentPages.contains pageNum then
      currentPages.filter (fun p => p != pageNum)
    else currentPages ++ [pageNum]
  setPages st statementType newPages

/-- The total page count of the selection, as computed twice in
`handleExtractData` and in the button guard of `PDFDetail.jsx`. -/
def totalSelectedPages (st : SelectedPages) : Nat :=
  (st.map (fun p => p.2)).foldl (fun sum pages => sum + pages.length) 0

/-- `handleExtractData` of `PDFDetail.jsx`, modelled by the request it issues:
`some (pdfId, selectedPages)` when `pdfService.extractDataFromPages` is
called, `none` when the handler returns at the empty-selection guard. -/
def handleExtractData (pdfId : String) (st : SelectedPages) :
    Option (String × SelectedPages) :=
  if totalSelectedPages st = 0 then Option.none else some (pdfId, st)

end StockExtract

namespace StockExtract

/- ### Helper lemmas on characters and trimming -/

/-- A digit-or-dot character is not whitespace. -/
theorem dd_not_ws {c : Char} (h : isDigitOrDot c = true) : isWs c = false := by
  rcases Bool.or_eq_true _ _ |>.mp h with hd | hdot
  · have hm : c ∈ digitChars := by simpa [isDigitCh] using hd
    fin_cases hm <;> decide
  · have hc : c = '.' := by simpa using hdot
    subst hc; decide

/-- A digit-or-dot character is not a comma. -/
theorem dd_ne_comma {c : Char} (h : isDigitOrDot c = true) : (c != ',') = true := by
  rcases Bool.or_eq_true _ _ |>.mp h with hd | hdot
  · have hm : c ∈ digitChars := by simpa [isDigitCh] using hd
    fin_cases hm <;> decide
  · have hc : c = '.' := by simpa using hdot
    subst hc; decide

/-- dropWhile is the identity on whitespace-free lists. -/
theorem dropWhile_ws_of_all {w : List Char} (h : ∀ c ∈ w, isWs c = false) :
    w.dropWhile isWs = w := by
  cases w with
  | nil => rfl
  | cons c t => simp [List.dropWhile_cons, h c (by simp)]

/-- trim is the identity on whitespace-free lists. -/
theorem trim_of_all {w : List Char} (h : ∀ c ∈ w, isWs c = false) : trim w = w := by
  unfold trim trimEnd
  rw [dropWhile_ws_of_all h,
    dropWhile_ws_of_all (fun c hc => h c (List.mem_reverse.mp hc)),
    List.reverse_reverse]

/-- Currency stripping does not touch a body starting with a digit or dot. -/
theorem dropMark_skip {w p : List Char} (hw : ∀ c ∈ w, isDigitOrDot c = true)
    (hp : p ≠ []) (hph : isDigitOrDot (p.headD ' ') = false) : dropMark w p = w := by
  unfold dropMark
  cases w with
  | nil =>
    rw [if_neg]
    intro he
    exact hp (by simpa using he.symm)
  | cons c t =>
    rw [if_neg]
    intro he
    cases p with
    | nil => exact hp rfl
    | cons q qs =>
      simp only [List.length_cons, List.take_succ_cons, List.cons.injEq] at he
      have hq : isDigitOrDot q = true := he.1 ▸ hw c (by simp)
      simp only [List.headD_cons] at hph
      rw [hph] at hq
      exact Bool.noConfusion hq

/-- None of the configured currency markers applies to a digit-or-dot body. -/
theorem stripCurrency_skip {w : List Char} (hw : ∀ c ∈ w, isDigitOrDot c = true) :
    stripCurrency w = w := by
  unfold stripCurrency currencyMarks
  simp only [List.foldl_cons, List.foldl_nil]
  rw [dropMark_skip hw (by decide) (by decide),
    dropMark_skip hw (by decide) (by decide),
    dropMark_skip hw (by decide) (by decide),
    dropMark_skip hw (by decide) (by decide)]

/-- Comma stripping does not touch a digit-or-dot body. -/
theorem stripCommas_skip {w : List Char} (hw : ∀ c ∈ w, isDigitOrDot c = true) :
    stripCommas w = w :=
  List.filter_eq_self.mpr (fun c hc => dd_ne_comma (hw c hc))

/- ### C1 -/

/-- C1: for every raw cell of the bracket form `(N)` with `N` a numeric
literal, `normalize` returns `is_negative = true` and the negated magnitude
`-N`, with neither the null flag nor the parse-failure flag set. -/
theorem normalize_bracket_negative (N : String) (h : isNumLit N.data = true) :
    normalize ("(" ++ N ++ ")") =
      ⟨"(" ++ N ++ ")", some (-(decimalVal N.data)), true, false, false⟩ := by
  have hdata : ("(" ++ N ++ ")").data = '(' :: (N.data ++ [')']) := by
    rw [String.data_append, String.data_append]
    rfl
  have hall : ∀ c ∈ N.data, isDigitOrDot c = true := by
    intro c hc
    have h1 := (Bool.and_eq_true _ _ |>.mp (Bool.and_eq_true _ _ |>.mp h).1).1
    exact List.all_eq_true.mp h1 c hc
  have hne : N.data ≠ [] := by
    have h3 := (Bool.and_eq_true _ _ |>.mp h).2
    rcases List.any_eq_true.mp h3 with ⟨c, hc, _⟩
    intro e
    rw [e] at hc
    exact List.not_mem_nil c hc
  have hfull : ∀ c ∈ '(' :: (N.data ++ [')']), isWs c = false := by
    intro c hc
    rcases List.mem_cons.mp hc with rfl | hc'
    · decide
    · rcases List.mem_append.mp hc' with hw | hp
      · exact dd_not_ws (hall c hw)
      · have hcp : c = ')' := by simpa using hp
        subst hcp; decide
  have htrim : trim ("(" ++ N ++ ")").data = '(' :: (N.data ++ [')']) := by
    rw [hdata]; exact trim_of_all hfull
  have hnull : isNullTok ('(' :: (N.data ++ [')'])) = false := by
    simp [isNullTok, lowerChar]
  have hbr : isBracket ('(' :: (N.data ++ [')'])) = true := by
    unfold isBracket
    have h1 : ('(' :: (N.data ++ [')'])).headD ' ' = '(' := rfl
    have h2 : ('(' :: (N.data ++ [')'])).getLastD ' ' = ')' := by
      have he : ('(' :: (N.data ++ [')'])) = ('(' :: N.data) ++ [')'] := by simp
      rw [he, List.getLastD_concat]
    have h3 : 2 ≤ ('(' :: (N.data ++ [')'])).length := by
      simp
    rw [h1, h2, decide_eq_true h3]
    rfl
  have hbody : ((('(' :: (N.data ++ [')'])).drop 1).dropLast) = N.data := by
    simp only [List.drop_one, List.tail_cons, List.dropLast_concat]
  have htrimN : trim N.data = N.data := trim_of_all (fun c hc => dd_not_ws (hall c hc))
  have hstrip : stripCommas (stripCurrency N.data) = N.data := by
    rw [stripCurrency_skip hall, stripCommas_skip hall]
  have hparse : parseDecimal N.data = some (decimalVal N.data) := by
    unfold parseDecimal
    rw [if_pos h]
  have hemp : N.data.isEmpty = false := by
    cases hh : N.data with
    | nil => exact absurd hh hne
    | cons a t => rfl
  unfold normalize
  rw [htrim]
  simp [hnull, hbr, hbody, htrimN, hstrip, hemp, hparse]

/-- Witness for C1 at the concrete bracketed cell `(45.2)`. -/
theorem normalize_bracket_negative_witness :
    isNumLit "45.2".data = true ∧
    normalize "(45.2)" =
      ⟨"(45.2)", some (-(decimalVal "45.2".data)), true, false, false⟩ :=
  ⟨by decide, normalize_bracket_negative "45.2" (by decide)⟩

/- ### C5 -/

/-- C5: `normalize` strips currency markers and thousands separators while
preserving the decimal point, and applies no unit scaling:
`"1,234,567.89"` yields `1234567.89` and `"Rs. 1,000,000"` yields `1000000`. -/
theorem normalize_separator_currency :
    normalize "1,234,567.89" =
      ⟨"1,234,567.89", some ((123456789 : Rat) / 100), false, false, false⟩ ∧
    normalize "Rs. 1,000,000" =
      ⟨"Rs. 1,000,000", some ((1000000 : Rat)), false, false, false⟩ := by
  constructor
  · have h : normalize "1,234,567.89" =
        ⟨"1,234,567.89", some (decimalVal "1234567.89".data), false, false, false⟩ := rfl
    rw [h]
    simp only [NormalizedValue.mk.injEq, Option.some.injEq, and_true, true_and]
    have h1 : "1234567.89".data.takeWhile (fun c => c != '.') = "1234567".data := by decide
    have h2 : ("1234567.89".data.dropWhile (fun c => c != '.')).drop 1 = "89".data := by
      decide
    simp only [decimalVal, h1, h2]
    have h3 : digitsVal "1234567".data = 1234567 := by decide
    have h4 : digitsVal "89".data = 89 := by decide
    have h5 : "89".data.length = 2 := by decide
    rw [h3, h4, h5]
    norm_num
  · have h : normalize "Rs. 1,000,000" =
        ⟨"Rs. 1,000,000", some (decimalVal "1000000".data), false, false, false⟩ := rfl
    rw [h]
    simp only [NormalizedValue.mk.injEq, Option.some.injEq, and_true, true_and]
    have h1 : "1000000".data.takeWhile (fun c => c != '.') = "1000000".data := by decide
    have h2 : ("1000000".data.dropWhile (fun c => c != '.')).drop 1 = ([] : List Char) := by
      decide
    simp only [decimalVal, h1, h2]
    have h3 : digitsVal "1000000".data = 1000000 := by decide
    have h4 : digitsVal ([] : List Char) = 0 := by decide
    rw [h3, h4]
    norm_num

/- ### C6 -/

/-- C6: on the documented two-row header, column 0 is description, column 1
is bank_year1 with entity Bank and year 2023, and column 3 is group_year1
with entity Group and year 2023. -/
theorem interpret_columns_header_example :
    ((interpret_columns [["", "Bank", "Bank", "Group", "Group"],
        ["Particulars", "2023", "2022", "2023", "2022"]]).getD 0
      ⟨0, ColumnType.unknown, Option.none, Option.none, 0⟩).column_type =
        ColumnType.description ∧
    (((interpret_columns [["", "Bank", "Bank", "Group", "Group"],
        ["Particulars", "2023", "2022", "2023", "2022"]]).getD 1
      ⟨0, ColumnType.unknown, Option.none, Option.none, 0⟩).column_type =
        ColumnType.bank_year1 ∧
     ((interpret_columns [["", "Bank", "Bank", "Group", "Group"],
        ["Particulars", "2023", "2022", "2023", "2022"]]).getD 1
      ⟨0, ColumnType.unknown, Option.none, Option.none, 0⟩).entity =
        some Entity.Bank ∧
     ((interpret_columns [["", "Bank", "Bank", "Group", "Group"],
        ["Particulars", "2023", "2022", "2023", "2022"]]).getD 1
      ⟨0, ColumnType.unknown, Option.none, Option.none, 0⟩).year = some 2023) ∧
    (((interpret_columns [["", "Bank", "Bank", "Group", "Group"],
        ["Particulars", "2023", "2022", "2023", "2022"]]).getD 3
      ⟨0, ColumnType.unknown, Option.none, Option.none, 0⟩).column_type =
        ColumnType.group_year1 ∧
     ((interpret_columns [["", "Bank", "Bank", "Group", "Group"],
        ["Particulars", "2023", "2022", "2023", "2022"]]).getD 3
      ⟨0, ColumnType.unknown, Option.none, Option.none, 0⟩).entity =
        some Entity.Group ∧
     ((interpret_columns [["", "Bank", "Bank", "Group", "Group"],
        ["Particulars", "2023", "2022", "2023", "2022"]]).getD 3
      ⟨0, ColumnType.unknown, Option.none, Option.none, 0⟩).year = some 2023) := by
  decide

/- ### C8 -/

/-- C8: every dash variant, "nil"/"NIL" and the empty string normalize to a
semantic blank (`is_null = true`, no value), while non-numeric residual text
such as `"abc"` is a parse failure (`parse_failed = true`, `is_null = false`),
so the two outcomes are distinguishable. -/
theorem normalize_null_vs_parse_failure :
    (normalize "-").is_null = true ∧ (normalize "-").value = Option.none ∧
    (normalize "–").is_null = true ∧ (normalize "–").value = Option.none ∧
    (normalize "—").is_null = true ∧ (normalize "—").value = Option.none ∧
    (normalize "nil").is_null = true ∧ (normalize "nil").value = Option.none ∧
    (normalize "NIL").is_null = true ∧ (normalize "NIL").value = Option.none ∧
    (normalize "").is_null = true ∧ (normalize "").value = Option.none ∧
    (normalize "abc").parse_failed = true ∧ (normalize "abc").is_null = false ∧
    (normalize "abc").value = Option.none := by
  decide

end StockExtract

namespace StockExtract

/- ### C2 -/

/-- A product of nonnegative factors is nonnegative. -/
theorem prodList_nonneg {l : List Rat} (h : ∀ x ∈ l, 0 ≤ x) : 0 ≤ prodList l := by
  induction l with
  | nil => norm_num [prodList]
  | cons a t ih =>
    simp only [prodList]
    exact mul_nonneg (h a (by simp)) (ih (fun x hx => h x (by simp [hx])))

/-- A product of factors in the unit interval is at most one. -/
theorem prodList_le_one {l : List Rat} (h : ∀ x ∈ l, 0 ≤ x ∧ x ≤ 1) :
    prodList l ≤ 1 := by
  induction l with
  | nil => norm_num [prodList]
  | cons a t ih =>
    simp only [prodList]
    exact mul_le_one₀ (h a (by simp)).2
      (prodList_nonneg (fun x hx => (h x (by simp [hx])).1))
      (ih (fun x hx => h x (by simp [hx])))

/-- The complement product is bounded by the complement of any member. -/
theorem prodList_le_of_mem {l : List Rat} {c : Rat} (hc : c ∈ l)
    (h : ∀ x ∈ l, 0 ≤ x ∧ x ≤ 1) :
    prodList (l.map (fun x => 1 - x)) ≤ 1 - c := by
  induction l with
  | nil => cases hc
  | cons a t ih =>
    simp only [List.map_cons, prodList]
    have hrest : ∀ x ∈ t.map (fun x => 1 - x), 0 ≤ x ∧ x ≤ 1 := by
      intro x hx
      rcases List.mem_map.mp hx with ⟨y, hy, rfl⟩
      have hy' := h y (by simp [hy])
      constructor <;> linarith [hy'.1, hy'.2]
    rcases List.mem_cons.mp hc with rfl | hc'
    · have h1 : prodList (t.map (fun x => 1 - x)) ≤ 1 :=
        prodList_le_one hrest
      have h0 : (0:Rat) ≤ 1 - c := by linarith [(h c (by simp)).2]
      calc (1 - c) * prodList (t.map (fun x => 1 - x)) ≤ (1 - c) * 1 :=
            mul_le_mul_of_nonneg_left h1 h0
        _ = 1 - c := by ring
    · have h1 : prodList (t.map (fun x => 1 - x)) ≤ 1 - c :=
        ih hc' (fun x hx => h x (by simp [hx]))
      have h0 : (0:Rat) ≤ prodList (t.map (fun x => 1 - x)) :=
        prodList_nonneg (fun x hx => (hrest x hx).1)
      have ha : 1 - a ≤ 1 := by linarith [(h a (by simp)).1]
      calc (1 - a) * prodList (t.map (fun x => 1 - x))
            ≤ 1 * prodList (t.map (fun x => 1 - x)) :=
            mul_le_mul_of_nonneg_right ha h0
        _ = prodList (t.map (fun x => 1 - x)) := by ring
        _ ≤ 1 - c := h1

/-- C2 (amended): for per-source confidences each in `[0, 0.99]`, the
noisy-OR fused confidence of the cluster dominates every source confidence
and never exceeds the 0.99 cap. -/
theorem fuseConfidence_bounds (cs : List Rat)
    (h : ∀ c ∈ cs, 0 ≤ c ∧ c ≤ 99 / 100) :
    (∀ c ∈ cs, c ≤ fuseConfidence cs) ∧ fuseConfidence cs ≤ 99 / 100 := by
  constructor
  · intro c hc
    have hb : ∀ x ∈ cs, 0 ≤ x ∧ x ≤ 1 := by
      intro x hx
      have hx' := h x hx
      exact ⟨hx'.1, by linarith [hx'.2]⟩
    have h1 : prodList (cs.map (fun x => 1 - x)) ≤ 1 - c :=
      prodList_le_of_mem hc hb
    have h2 : c ≤ 1 - prodList (cs.map (fun x => 1 - x)) := by linarith
    exact le_min h2 (h c hc).2
  · exact min_le_right _ _

/-- C2 counterexample: a single source of confidence 1 — a valid confidence,
the data model only requires `[0,1]` — is fused to 0.99 < 1, so the claimed
`max cᵢ ≤ fused confidence` fails as stated. -/
theorem fuseConfidence_cap_counterexample :
    ((0:Rat) ≤ 1 ∧ (1:Rat) ≤ 1) ∧ fuseConfidence [1] = 99 / 100 ∧
      ¬ ((1:Rat) ≤ fuseConfidence [1]) := by
  have h : fuseConfidence [1] = 99 / 100 := by
    simp only [fuseConfidence, List.map_cons, List.map_nil, prodList]
    norm_num [min_def]
  refine ⟨⟨by norm_num, le_refl _⟩, h, ?_⟩
  rw [h]
  norm_num

/-- Witness for C2 at the two concrete sources 0.5 and 0.6. -/
theorem fuseConfidence_bounds_witness :
    ((0:Rat) ≤ 1/2 ∧ (1/2:Rat) ≤ 99/100) ∧
      (1/2 : Rat) ≤ fuseConfidence [1/2, 3/5] ∧
      fuseConfidence [1/2, 3/5] ≤ 99/100 := by
  have hb : ∀ c ∈ [(1:Rat)/2, 3/5], 0 ≤ c ∧ c ≤ 99 / 100 := by
    intro c hc
    rcases List.mem_cons.mp hc with rfl | hc'
    · constructor <;> norm_num
    · rcases List.mem_cons.mp hc' with rfl | hc''
      · constructor <;> norm_num
      · cases hc''
  have hh := fuseConfidence_bounds [1/2, 3/5] hb
  exact ⟨⟨by norm_num, by norm_num⟩, hh.1 (1/2) (by simp), hh.2⟩

/- ### C3 -/

/-- Error containment is invisible to the pipeline: a hardened detector
contributes exactly what the erroring one does. -/
theorem catchDetect_harden (d : Detector) (st : StatementType) :
    catchDetect (hardenDetector d) st = catchDetect d st := rfl

/-- Hardening the detectors does not change the gathered candidates. -/
theorem gather_harden (ds : List Detector) (st : StatementType) :
    gatherCandidates (ds.map hardenDetector) st = gatherCandidates ds st := by
  unfold gatherCandidates
  rw [List.map_map]
  rfl

/-- If every detector raises for a statement type, nothing is gathered. -/
theorem gather_all_err {ds : List Detector} {st : StatementType}
    (h : ∀ d ∈ ds, ∃ e, d st = Except.error e) :
    gatherCandidates ds st = [] := by
  induction ds with
  | nil => rfl
  | cons d t ih =>
    unfold gatherCandidates at *
    simp only [List.map_cons, List.flatten_cons]
    rcases h d (by simp) with ⟨e, he⟩
    have hc : catchDetect d st = [] := by
      unfold catchDetect
      rw [he]
    rw [hc, List.nil_append]
    exact ih (fun d' hd' => h d' (by simp [hd']))

/-- C3: detector errors are contained per detector (replacing every failure
by zero candidates gives the same result), a statement type for which every
detector fails gets the empty candidate list instead of an error, and
`locate` still returns one entry per statement type. -/
theorem locate_fault_tolerance (ds : List Detector) (st : StatementType) :
    locateOne (ds.map hardenDetector) st = locateOne ds st ∧
    ((∀ d ∈ ds, ∃ e, d st = Except.error e) → locateOne ds st = []) ∧
    (locate ds).map Prod.fst = allStatementTypes := by
  refine ⟨?_, ?_, ?_⟩
  · unfold locateOne
    rw [gather_harden]
  · intro h
    unfold locateOne
    rw [gather_all_err h]
    rfl
  · unfold locate
    rw [List.map_map]
    exact List.map_id _

/-- Witness for C3: a single always-raising detector yields the empty
candidate list for the income statement. -/
theorem locate_fault_tolerance_witness :
    locateOne [errDetector] StatementType.IncomeStatement = [] :=
  (locate_fault_tolerance [errDetector] StatementType.IncomeStatement).2.1
    (by
      intro d hd
      have hd' : d = errDetector := by simpa using hd
      exact ⟨"io error", by rw [hd']; rfl⟩)

end StockExtract

namespace StockExtract

/- ### C4 -/

/-- The fold seed is a lower bound of the fold of max. -/
theorem init_le_foldl_max (l : List Rat) (a : Rat) : a ≤ l.foldl max a := by
  induction l generalizing a with
  | nil => exact le_refl a
  | cons b t ih => exact le_trans (le_max_left a b) (ih (max a b))

/-- Every member is a lower bound of the fold of max. -/
theorem mem_le_foldl_max {l : List Rat} {x : Rat} (hx : x ∈ l) (a : Rat) :
    x ≤ l.foldl max a := by
  induction l generalizing a with
  | nil => cases hx
  | cons b t ih =>
    rcases List.mem_cons.mp hx with rfl | hx'
    · exact le_trans (le_max_right a x) (init_le_foldl_max t (max a x))
    · exact ih hx' (max a b)

/-- The fold of max is the seed or a member. -/
theorem foldl_max_mem (l : List Rat) (a : Rat) :
    l.foldl max a = a ∨ l.foldl max a ∈ l := by
  induction l generalizing a with
  | nil => exact Or.inl rfl
  | cons b t ih =>
    rcases ih (max a b) with h | h
    · rcases max_choice a b with hm | hm
      · exact Or.inl (by rw [List.foldl_cons, h, hm])
      · exact Or.inr (by rw [List.foldl_cons, h, hm]; exact List.mem_cons_self _ _)
    · exact Or.inr (List.mem_cons_of_mem b h)

/-- The similarity score never exceeds 100. -/
theorem simScore_le_100 (a b : List Char) : simScore a b ≤ 100 := by
  show (if (max a.length b.length) = 0 then (100:Rat)
      else 100 * ((max a.length b.length - editDist a b : Nat) : Rat) /
        ((max a.length b.length : Nat) : Rat)) ≤ 100
  split
  · exact le_refl _
  · rename_i hm
    have hmp : (0:Rat) < (max a.length b.length : Nat) := by
      have hp : 0 < max a.length b.length := Nat.pos_of_ne_zero hm
      exact_mod_cast hp
    rw [div_le_iff₀ hmp]
    have hsub : ((max a.length b.length - editDist a b : Nat) : Rat) ≤
        ((max a.length b.length : Nat) : Rat) := by
      exact_mod_cast Nat.sub_le _ _
    nlinarith

/-- The best fuzzy score never exceeds 100. -/
theorem bestScore_le_100 (raw : String) (st : StatementType) :
    bestScore raw st ≤ 100 := by
  unfold bestScore
  rcases foldl_max_mem
      ((STATEMENT_FIELDS st).map (fun f => simScore (normLabel raw) (normLabel f))) 0
    with h | h
  · rw [h]; norm_num
  · rcases List.mem_map.mp h with ⟨f, _, hf⟩
    rw [← hf]
    exact simScore_le_100 _ _

/-- A best score reaching the threshold is attained by some canonical field. -/
theorem bestScore_attained {raw : String} {st : StatementType}
    (h : 85 ≤ bestScore raw st) :
    ∃ f ∈ STATEMENT_FIELDS st,
      simScore (normLabel raw) (normLabel f) = bestScore raw st := by
  rcases foldl_max_mem
      ((STATEMENT_FIELDS st).map (fun f => simScore (normLabel raw) (normLabel f))) 0
    with hc | hc
  · exfalso
    unfold bestScore at h
    rw [hc] at h
    norm_num at h
  · rcases List.mem_map.mp hc with ⟨f, hf, hs⟩
    exact ⟨f, hf, hs⟩

/-- C4 (amended): when the cascade reaches the fuzzy step (no exact or
synonym match) and the best similarity score reaches the threshold 85,
`map_label` returns a fuzzy match whose confidence is the score rescaled by
0.95, hence never above the synonym confidence 0.95 or the exact
confidence 1. -/
theorem map_label_fuzzy_confidence (raw : String) (st : StatementType)
    (h1 : exactStep raw st = Option.none) (h2 : synonymStep raw st = Option.none)
    (h3 : 85 ≤ bestScore raw st) :
    (map_label raw st).match_method = MatchMethod.fuzzy ∧
    (map_label raw st).confidence = bestScore raw st / 100 * (95 / 100) ∧
    (map_label raw st).confidence ≤ 95 / 100 ∧
    (map_label raw st).confidence ≤ 1 := by
  rcases bestScore_attained h3 with ⟨f, hf, hs⟩
  have hfind : ∃ f', ((STATEMENT_FIELDS st).find?
      (fun f => decide (simScore (normLabel raw) (normLabel f) = bestScore raw st))) =
        some f' := by
    rw [← Option.isSome_iff_exists]
    rw [List.find?_isSome]
    exact ⟨f, hf, by simp [hs]⟩
  rcases hfind with ⟨f', hf'⟩
  have hfz : fuzzyStep raw st =
      some ⟨raw, some f', MatchMethod.fuzzy, bestScore raw st / 100 * (95 / 100)⟩ := by
    unfold fuzzyStep
    rw [if_pos h3, hf']
    rfl
  have hml : map_label raw st =
      ⟨raw, some f', MatchMethod.fuzzy, bestScore raw st / 100 * (95 / 100)⟩ := by
    unfold map_label
    rw [h1, h2, hfz]
  rw [hml]
  have hb100 : bestScore raw st ≤ 100 := bestScore_le_100 raw st
  have hconf : bestScore raw st / 100 * (95 / 100) ≤ 95 / 100 := by
    have hd : bestScore raw st / 100 ≤ 1 := by
      rw [div_le_one (by norm_num : (0:Rat) < 100)]
      exact hb100
    nlinarith [hd]
  refine ⟨rfl, rfl, hconf, le_trans hconf (by norm_num)⟩

/-- C4 counterexample: the already-canonical label "Interest income" has
best fuzzy score 100 ≥ 85, yet `map_label` returns `match_method = exact`,
not `fuzzy` — the claim as stated fails for labels the earlier cascade steps
catch. -/
theorem map_label_fuzzy_counterexample :
    85 ≤ bestScore "Interest income" StatementType.IncomeStatement ∧
    (map_label "Interest income" StatementType.IncomeStatement).match_method =
      MatchMethod.exact ∧
    (map_label "Interest income" StatementType.IncomeStatement).match_method ≠
      MatchMethod.fuzzy := by
  have hl : max (normLabel "Interest income").length (normLabel "Interest income").length
      = 15 := by decide
  have hd : editDist (normLabel "Interest income") (normLabel "Interest income") = 0 := by
    decide
  have hself : simScore (normLabel "Interest income") (normLabel "Interest income")
      = 100 := by
    show (if (max (normLabel "Interest income").length
          (normLabel "Interest income").length) = 0 then (100:Rat)
        else 100 * ((max (normLabel "Interest income").length
            (normLabel "Interest income").length -
          editDist (normLabel "Interest income") (normLabel "Interest income") : Nat) : Rat) /
          ((max (normLabel "Interest income").length
            (normLabel "Interest income").length : Nat) : Rat)) = 100
    rw [hl, hd]
    norm_num
  have hmem : simScore (normLabel "Interest income") (normLabel "Interest income") ∈
      (STATEMENT_FIELDS StatementType.IncomeStatement).map
        (fun f => simScore (normLabel "Interest income") (normLabel f)) :=
    List.mem_map_of_mem _ (by decide)
  have hb : 85 ≤ bestScore "Interest income" StatementType.IncomeStatement := by
    have hle := mem_le_foldl_max hmem 0
    unfold bestScore
    rw [hself] at hle
    linarith
  exact ⟨hb, by decide, by decide⟩

set_option maxRecDepth 8192 in
/-- Witness for C4 at the concrete near-miss label "Net interest incom". -/
theorem map_label_fuzzy_confidence_witness :
    exactStep "Net interest incom" StatementType.IncomeStatement = Option.none ∧
    synonymStep "Net interest incom" StatementType.IncomeStatement = Option.none ∧
    85 ≤ bestScore "Net interest incom" StatementType.IncomeStatement ∧
    (map_label "Net interest incom" StatementType.IncomeStatement).match_method =
      MatchMethod.fuzzy ∧
    (map_label "Net interest incom" StatementType.IncomeStatement).confidence ≤
      95 / 100 := by
  have h1 : exactStep "Net interest incom" StatementType.IncomeStatement =
      Option.none := by decide
  have h2 : synonymStep "Net interest incom" StatementType.IncomeStatement =
      Option.none := by decide
  have hl : max (normLabel "Net interest incom").length
      (normLabel "Net interest income").length = 19 := by decide
  have hd : editDist (normLabel "Net interest incom")
      (normLabel "Net interest income") = 1 := by decide
  have hs : (85:Rat) ≤ simScore (normLabel "Net interest incom")
      (normLabel "Net interest income") := by
    show (85:Rat) ≤ (if (max (normLabel "Net interest incom").length
          (normLabel "Net interest income").length) = 0 then (100:Rat)
        else 100 * ((max (normLabel "Net interest incom").length
            (normLabel "Net interest income").length -
          editDist (normLabel "Net interest incom")
            (normLabel "Net interest income") : Nat) : Rat) /
          ((max (normLabel "Net interest incom").length
            (normLabel "Net interest income").length : Nat) : Rat))
    rw [hl, hd]
    norm_num
  have hmem : simScore (normLabel "Net interest incom")
      (normLabel "Net interest income") ∈
      (STATEMENT_FIELDS StatementType.IncomeStatement).map
        (fun f => simScore (normLabel "Net interest incom") (normLabel f)) :=
    List.mem_map_of_mem _ (by decide)
  have h3 : 85 ≤ bestScore "Net interest incom" StatementType.IncomeStatement := by
    have hh := mem_le_foldl_max hmem 0
    unfold bestScore
    linarith
  have hm := map_label_fuzzy_confidence "Net interest incom"
    StatementType.IncomeStatement h1 h2 h3
  exact ⟨h1, h2, h3, hm.1, hm.2.2.1⟩

end StockExtract

namespace StockExtract

/- ### C7 -/

/-- The canonical field lists have pairwise distinct normalized forms. -/
theorem fields_norm_pairwise (st : StatementType) :
    (STATEMENT_FIELDS st).Pairwise (fun a b => normLabel a ≠ normLabel b) := by
  cases st <;> decide

/-- Every synonym-dictionary key is a canonical field. -/
theorem synonym_keys_are_fields (st : StatementType) :
    ∀ p ∈ SYNONYMS st, p.1 ∈ STATEMENT_FIELDS st := by
  cases st <;> decide

/-- In a list with pairwise distinct normalized forms, the normalized search
finds the member itself. -/
theorem find_norm_self {l : List String}
    (hl : l.Pairwise (fun a b => normLabel a ≠ normLabel b))
    {x : String} (hx : x ∈ l) :
    l.find? (fun f => normLabel f == normLabel x) = some x := by
  induction l with
  | nil => cases hx
  | cons a t ih =>
    rcases List.mem_cons.mp hx with rfl | hx'
    · exact List.find?_cons_of_pos _ (by simp)
    · have hne : normLabel a ≠ normLabel x := (List.pairwise_cons.mp hl).1 x hx'
      rw [List.find?_cons_of_neg _ (by simpa using hne)]
      exact ih (List.pairwise_cons.mp hl).2 hx'

/-- The exact step maps a canonical field to itself with confidence 1. -/
theorem exactStep_self {st : StatementType} {k : String}
    (hk : k ∈ STATEMENT_FIELDS st) :
    exactStep k st = some ⟨k, some k, MatchMethod.exact, 1⟩ := by
  unfold exactStep
  rw [find_norm_self (fields_norm_pairwise st) hk]
  rfl

/-- Mapping a canonical field returns it via the exact step. -/
theorem map_label_self {st : StatementType} {k : String}
    (hk : k ∈ STATEMENT_FIELDS st) :
    map_label k st = ⟨k, some k, MatchMethod.exact, 1⟩ := by
  unfold map_label
  rw [exactStep_self hk]

/-- Every successful mapping returns a canonical field. -/
theorem map_label_key_mem {raw : String} {st : StatementType} {k : String}
    (h : (map_label raw st).canonical_key = some k) : k ∈ STATEMENT_FIELDS st := by
  unfold map_label at h
  cases he : exactStep raw st with
  | some r =>
    rw [he] at h
    unfold exactStep at he
    cases hf : (STATEMENT_FIELDS st).find? (fun f => normLabel f == normLabel raw) with
    | some f =>
      rw [hf] at he
      simp only [Option.map_some', Option.some.injEq] at he
      rw [← he] at h
      simp only [Option.some.injEq] at h
      rw [← h]
      exact List.mem_of_find?_eq_some hf
    | none => rw [hf] at he; exact Option.noConfusion he
  | none =>
    rw [he] at h
    cases hs : synonymStep raw st with
    | some r =>
      rw [hs] at h
      unfold synonymStep at hs
      cases hf : (SYNONYMS st).find?
          (fun p => (p.2.map normLabel).contains (normLabel raw)) with
      | some p =>
        rw [hf] at hs
        simp only [Option.map_some', Option.some.injEq] at hs
        rw [← hs] at h
        simp only [Option.some.injEq] at h
        rw [← h]
        exact synonym_keys_are_fields st p (List.mem_of_find?_eq_some hf)
      | none => rw [hf] at hs; exact Option.noConfusion hs
    | none =>
      rw [hs] at h
      cases hz : fuzzyStep raw st with
      | some r =>
        rw [hz] at h
        unfold fuzzyStep at hz
        by_cases hth : 85 ≤ bestScore raw st
        · rw [if_pos hth] at hz
          cases hf : (STATEMENT_FIELDS st).find?
              (fun f => decide (simScore (normLabel raw) (normLabel f) =
                bestScore raw st)) with
          | some f =>
            rw [hf] at hz
            simp only [Option.map_some', Option.some.injEq] at hz
            rw [← hz] at h
            simp only [Option.some.injEq] at h
            rw [← h]
            exact List.mem_of_find?_eq_some hf
          | none => rw [hf] at hz; exact Option.noConfusion hz
        · rw [if_neg hth] at hz
          exact Option.noConfusion hz
      | none =>
        rw [hz] at h
        exact Option.noConfusion h

/-- C7: mapping a label that is already a canonical field returns that same
key via the exact step with confidence 1, and re-mapping the canonical key of
any successful mapping returns the same key (idempotence). -/
theorem map_label_exact_idempotent (st : StatementType) :
    (∀ k ∈ STATEMENT_FIELDS st,
      map_label k st = ⟨k, some k, MatchMethod.exact, 1⟩) ∧
    (∀ raw k, (map_label raw st).canonical_key = some k →
      map_label k st = ⟨k, some k, MatchMethod.exact, 1⟩) :=
  ⟨fun _ hk => map_label_self hk,
   fun _ _ h => map_label_self (map_label_key_mem h)⟩

/-- Witness for C7: remapping the key produced for the synonym "NII". -/
theorem map_label_exact_idempotent_witness :
    (map_label "NII" StatementType.IncomeStatement).canonical_key =
      some "Net interest income" ∧
    map_label "Net interest income" StatementType.IncomeStatement =
      ⟨"Net interest income", some "Net interest income", MatchMethod.exact, 1⟩ ∧
    map_label "Interest income" StatementType.IncomeStatement =
      ⟨"Interest income", some "Interest income", MatchMethod.exact, 1⟩ :=
  ⟨by decide,
   (map_label_exact_idempotent StatementType.IncomeStatement).2 "NII"
     "Net interest income" (by decide),
   (map_label_exact_idempotent StatementType.IncomeStatement).1 "Interest income"
     (by decide)⟩

end StockExtract

namespace StockExtract

/- ### C9 and C10 -/

/-- Boolean containment agrees with membership. -/
theorem contains_iff_mem (l : List Nat) (a : Nat) : l.contains a = true ↔ a ∈ l := by
  simp

/-- Updating a key and reading it back returns the new value. -/
theorem getPages_setPages (st : SelectedPages) (k : String) (v : List Nat) :
    getPages (setPages st k v) k = v := by
  induction st with
  | nil => simp [setPages, getPages]
  | cons q rest ih =>
    cases q with
    | mk k' v' =>
      by_cases hk : k' == k
      · simp only [setPages]
        rw [if_pos hk]
        simp [getPages]
      · simp only [setPages]
        rw [if_neg hk]
        simpa [getPages, List.find?_cons, hk] using ih

/-- The selection of the toggled statement type after one toggle. -/
theorem getPages_handlePageSelect (st : SelectedPages) (k : String) (p : Nat) :
    getPages (handlePageSelect st k p) k =
      (if (getPages st k).contains p then (getPages st k).filter (fun q => q != p)
       else getPages st k ++ [p]) :=
  getPages_setPages st k _

/-- C10: handlePageSelect toggles per-statement page membership. -/
theorem handlePageSelect_toggle (st : SelectedPages) (k : String) (p : Nat) :
    (p ∉ getPages st k →
      getPages (handlePageSelect st k p) k = getPages st k ++ [p]) ∧
    (p ∈ getPages st k → p ∉ getPages (handlePageSelect st k p) k) ∧
    ((getPages st k).Nodup → (getPages (handlePageSelect st k p) k).Nodup) ∧
    (p ∈ getPages (handlePageSelect (handlePageSelect st k p) k p) k ↔
      p ∈ getPages st k) := by
  by_cases hc : p ∈ getPages st k
  · have hcb : (getPages st k).contains p = true := (contains_iff_mem _ _).mpr hc
    have h1 : getPages (handlePageSelect st k p) k =
        (getPages st k).filter (fun q => q != p) := by
      rw [getPages_handlePageSelect, if_pos hcb]
    have hnm : p ∉ getPages (handlePageSelect st k p) k := by
      rw [h1]
      intro hmem
      have := (List.mem_filter.mp hmem).2
      simp at this
    refine ⟨fun hn => absurd hc hn, fun _ => hnm, ?_, ?_⟩
    · intro hnd
      rw [h1]
      exact hnd.filter _
    · have hcb2 : (getPages (handlePageSelect st k p) k).contains p = false := by
        rw [Bool.eq_false_iff]
        intro hmm
        exact hnm ((contains_iff_mem _ _).mp hmm)
      have h2 : getPages (handlePageSelect (handlePageSelect st k p) k p) k =
          getPages (handlePageSelect st k p) k ++ [p] := by
        rw [getPages_handlePageSelect, hcb2]
        rfl
      rw [h2]
      simp [hc]
  · have hcb : (getPages st k).contains p = false := by
      rw [Bool.eq_false_iff]
      intro hmm
      exact hc ((contains_iff_mem _ _).mp hmm)
    have h1 : getPages (handlePageSelect st k p) k = getPages st k ++ [p] := by
      rw [getPages_handlePageSelect, hcb]
      rfl
    have hm1 : p ∈ getPages (handlePageSelect st k p) k := by
      rw [h1]; simp
    have hcb1 : (getPages (handlePageSelect st k p) k).contains p = true :=
      (contains_iff_mem _ _).mpr hm1
    have h2 : getPages (handlePageSelect (handlePageSelect st k p) k p) k =
        (getPages st k ++ [p]).filter (fun q => q != p) := by
      rw [getPages_handlePageSelect, if_pos hcb1, h1]
    refine ⟨fun _ => h1, fun hmem => absurd hmem hc, ?_, ?_⟩
    · intro hnd
      rw [h1, List.nodup_append]
      refine ⟨hnd, List.nodup_singleton p, ?_⟩
      intro a ha hap
      simp only [List.mem_singleton] at hap
      exact hc (hap ▸ ha)
    · rw [h2]
      constructor
      · intro hmem
        have := (List.mem_filter.mp hmem).2
        simp at this
      · intro hmem
        exact absurd hmem hc

/-- Witness for C10 at concrete selections. -/
theorem handlePageSelect_toggle_witness :
    getPages (handlePageSelect [] "Income_Statement" 5) "Income_Statement" =
      getPages ([] : SelectedPages) "Income_Statement" ++ [5] ∧
    (5 ∉ getPages (handlePageSelect [("Income_Statement", [5])]
      "Income_Statement" 5) "Income_Statement") ∧
    (5 ∈ getPages (handlePageSelect (handlePageSelect [("Income_Statement", [5])]
        "Income_Statement" 5) "Income_Statement" 5) "Income_Statement" ↔
      5 ∈ getPages [("Income_Statement", [5])] "Income_Statement") :=
  ⟨(handlePageSelect_toggle [] "Income_Statement" 5).1 (by decide),
   (handlePageSelect_toggle [("Income_Statement", [5])] "Income_Statement" 5).2.1
     (by decide),
   (handlePageSelect_toggle [("Income_Statement", [5])] "Income_Statement" 5).2.2.2⟩

/-- C9: the extract-data request is never issued with an empty selection. -/
theorem handleExtractData_guard (pdfId : String) (st : SelectedPages) :
    (totalSelectedPages st = 0 → handleExtractData pdfId st = Option.none) ∧
    (∀ r, handleExtractData pdfId st = some r → 1 ≤ totalSelectedPages r.2) := by
  constructor
  · intro h
    unfold handleExtractData
    rw [if_pos h]
  · intro r hr
    unfold handleExtractData at hr
    by_cases h : totalSelectedPages st = 0
    · rw [if_pos h] at hr
      exact Option.noConfusion hr
    · rw [if_neg h] at hr
      have hrr : r = (pdfId, st) := (Option.some.injEq _ _ ▸ hr).symm
      rw [hrr]
      exact Nat.one_le_iff_ne_zero.mpr h

/-- Witness for C9: an all-empty selection issues no request, a one-page
selection issues a request carrying that page. -/
theorem handleExtractData_guard_witness :
    handleExtractData "pdf1" [("Income_Statement", []), ("Cash_Flow_Statement", [])] =
      Option.none ∧
    1 ≤ totalSelectedPages
      (("pdf1", [("Income_Statement", [12])]) : String × SelectedPages).2 :=
  ⟨(handleExtractData_guard "pdf1"
      [("Income_Statement", []), ("Cash_Flow_Statement", [])]).1 (by decide),
   (handleExtractData_guard "pdf1" [("Income_Statement", [12])]).2
      ("pdf1", [("Income_Statement", [12])]) (by decide)⟩

end StockExtract
